import Mathlib

/-!
Shallow embedding of the file-backed key-value store of this repository
(`src/pickledb.py`, class `PickleDB`) and of its REST facade (`src/api.py`).

Modelling conventions, stated once:

* A Python `dict` is an insertion-ordered association list with unique keys.
  `dictSet` updates the first (hence, on a real dict, the only) binding in
  place or appends a fresh one at the end; `dictDel` removes the binding;
  `dictGet` is `dict.get`.  Keys of the store may be Python strings or ints
  (`str(key)` coercion happens in some operations and not in others), so the
  key type `PyKey` is a tagged sum; values are a tagged sum `PyVal` of the
  JSON-compatible Python values the claims need.

* File contents are modelled symbolically by `Data`: `Data.plain d` stands
  for the plaintext `orjson.dumps` bytes of the dict `d`, `Data.cipher d`
  for a Fernet token encrypting those bytes (a Fernet token always begins
  with the base64 marker bytes `gAAAA`, and plaintext JSON of a dict begins
  with a brace, never with that marker), and `Data.garbage` for bytes that
  neither decrypt nor parse.  `orjson` and `cryptography.fernet` are
  external libraries, so their byte-level behaviour is captured by exactly
  these facts, which is all `pickledb.py` relies on.

* The filesystem state `FS` carries the primary database file (`none` for
  a missing or zero-length file, matching the `os.path.exists` /
  `os.path.getsize > 0` test of `_load`) and the backup directory as a
  name-sorted list of `(timestamp, contents)` pairs; backup filenames
  `backup_<YYYYMMDD_HHMMSS>.json` are in order-preserving bijection with
  their timestamps, so a timestamp `Nat` stands for the filename.  Writing
  a backup whose second-resolution timestamp already exists overwrites it,
  as in `_create_backup`.

* Fallible disk writes are made explicit: `save` takes a `writeOk` flag
  telling whether the encode-and-write of the temporary file succeeds; on
  `false` the `except` branch of the source runs.  Logging (`_log`) and
  diagnostic `print` calls are I/O side effects outside the claims and are
  not part of the state.
-/

namespace PickleSpec

/-- Python values stored in the database: the JSON-compatible scalars the
claims quantify over.  `PyVal.none` is Python `None`. -/
inductive PyVal where
  | none : PyVal
  | bool : Bool → PyVal
  | int : Int → PyVal
  | str : String → PyVal
deriving DecidableEq

/-- Python dictionary keys: the store coerces keys with `str(key)` in some
operations (`set`, `get`, `remove`) but not in others (`set_many`,
the membership test of `remove_many`), so string and int keys must be kept
distinct, exactly as distinct Python objects are distinct dict keys. -/
inductive PyKey where
  | str : String → PyKey
  | int : Int → PyKey
deriving DecidableEq

/-- Python `str(key)` for a key. -/
def pyKeyStr : PyKey → String
  | .str s => s
  | .int n => toString n

/-- Test that a key is already a Python string. -/
def PyKey.isStr : PyKey → Bool
  | .str _ => true
  | .int _ => false

/-- Python `str(value)` for the values of `PyVal`, as used by
`search_by_value`. -/
def pyValStr : PyVal → String
  | .none => "None"
  | .bool true => "True"
  | .bool false => "False"
  | .int n => toString n
  | .str s => s

/-- The in-memory map `self.db`: an insertion-ordered association list with
unique keys (the faithful model of a Python dict). -/
abbrev Dict := List (PyKey × PyVal)

/-- Python `d[k] = v`: update the binding of `k` in place if present,
otherwise append a new binding at the end (insertion order). -/
def dictSet : Dict → PyKey → PyVal → Dict
  | [], k, v => [(k, v)]
  | p :: rest, k, v => if p.1 = k then (k, v) :: rest else p :: dictSet rest k v

/-- Python `d.get(k)`: the value bound to `k`, if any. -/
def dictGet : Dict → PyKey → Option PyVal
  | [], _ => Option.none
  | p :: rest, k => if p.1 = k then some p.2 else dictGet rest k

/-- Python `del d[k]` / `d.pop(k, None)`: drop the binding of `k` (keys of a
dict are unique, so the filter removes exactly that entry). -/
def dictDel (d : Dict) (k : PyKey) : Dict :=
  d.filter (fun p => p.1 ≠ k)

/-- Python `k in d`. -/
def dictMem (d : Dict) (k : PyKey) : Bool :=
  d.any (fun p => p.1 == k)

/-- Python `list(d.keys())`. -/
def dictKeys (d : Dict) : List PyKey :=
  d.map (fun p => p.1)

/-- Contents of a file, symbolically: plaintext JSON of a dict, a Fernet
token encrypting the JSON of a dict (such a token always starts with the
marker bytes `gAAAA`; plaintext JSON never does), or undecodable bytes. -/
inductive Data where
  | plain : Dict → Data
  | cipher : Dict → Data
  | garbage : Data
deriving DecidableEq

/-- Python `data.startswith(b"gAAAA")` of `_load`: true exactly for Fernet
tokens. -/
def hasMarker : Data → Bool
  | .cipher _ => true
  | _ => false

/-- The encoding written by `save`, `_create_backup` and company:
`self._encrypt(orjson.dumps(self.db).decode())`, which is the plain JSON
bytes when encryption is disabled and a Fernet token when enabled. -/
def encode (encryption : Bool) (d : Dict) : Data :=
  if encryption then .cipher d else .plain d

/-- The decoding used by `_load` and `restore`:
`orjson.loads(self._decrypt(data))`.  With encryption disabled, a Fernet
token fails to parse as JSON; with encryption enabled, plaintext JSON is not
a valid Fernet token and decryption raises; garbage always fails. -/
def decodeData (encryption : Bool) : Data → Option Dict
  | .plain d => if encryption then Option.none else some d
  | .cipher d => if encryption then some d else Option.none
  | .garbage => Option.none

/-- The state of one `PickleDB` object: the in-memory dict `self.db`, the
gate flag `self.loaded` and the configured `self.encryption` mode. -/
structure PickleDB where
  db : Dict
  loaded : Bool
  encryption : Bool
deriving DecidableEq

/-- The filesystem as the store sees it: the primary database file at
`self.location` (`Option.none` for missing or zero-length) and the backup
directory as a name-sorted list of `(timestamp, contents)` files. -/
structure FS where
  primary : Option Data
  backups : List (Nat × Data)
deriving DecidableEq

/-- Writing `backup_<timestamp>.json` into the backup directory: the
directory is keyed by filename, so a same-named file is overwritten and the
name-sorted listing keeps timestamps ascending. -/
def insertBackup : List (Nat × Data) → Nat → Data → List (Nat × Data)
  | [], t, d => [(t, d)]
  | (t0, d0) :: rest, t, d =>
    if t < t0 then (t, d) :: (t0, d0) :: rest
    else if t = t0 then (t, d) :: rest
    else (t0, d0) :: insertBackup rest t d

/-- Look up a backup file by name in the backup directory
(`os.path.exists(backup_path)` plus reading it). -/
def lookupBackup (fs : FS) (name : Nat) : Option Data :=
  (fs.backups.find? (fun p => p.1 == name)).map (fun p => p.2)

/-- `PickleDB.list_backups`: `sorted(os.listdir(self.backup_dir))`; the
directory model is already name-sorted. -/
def PickleDB.list_backups (fs : FS) : List Nat :=
  fs.backups.map (fun p => p.1)

/-- `PickleDB.cleanup_backups`: keep only the `max_backups` newest files,
deleting the oldest, and only when the count exceeds `max_backups`. -/
def cleanupBackups (bs : List (Nat × Data)) (maxBackups : Nat) : List (Nat × Data) :=
  if bs.length > maxBackups then bs.drop (bs.length - maxBackups) else bs

/-- `PickleDB._load`: decide `(self.db, self.loaded)` from the primary file.
A missing or empty file is a fresh database; otherwise the `gAAAA` marker is
reconciled against the configured mode (mismatch raises `ValueError`, caught
by the `except` branch: empty dict, `loaded = False`), and on a mode match
the contents are decoded, any decode failure taking the same `except`
branch. -/
def loadFn (encryption : Bool) (file : Option Data) : Dict × Bool :=
  match file with
  | Option.none => ([], true)
  | some data =>
    if hasMarker data && !encryption then ([], false)
    else if !hasMarker data && encryption then ([], false)
    else
      match decodeData encryption data with
      | some d => (d, true)
      | Option.none => ([], false)

/-- `PickleDB.save`: when the gate is closed, bare `return` (Python `None`)
and nothing changes; otherwise encode the dict and write it to the
temporary file (`writeOk = false` is the `except` branch: `False`, disk
untouched), atomically `os.replace` it over the primary file, and, when
`backup` is requested, create a timestamped backup and run
`cleanup_backups(max_back_ups)` whenever the listing exceeds the hardcoded
count 5. -/
def PickleDB.save (st : PickleDB) (fs : FS) (backup : Bool) (maxBackUps : Nat)
    (writeOk : Bool) (now : Nat) : Option Bool × FS :=
  if !st.loaded then (Option.none, fs)
  else if !writeOk then (some false, fs)
  else
    let fs1 : FS := { fs with primary := some (encode st.encryption st.db) }
    if backup then
      let fs2 : FS := { fs1 with
        backups := insertBackup fs1.backups now (encode st.encryption st.db) }
      if fs2.backups.length > 5 then
        (some true, { fs2 with backups := cleanupBackups fs2.backups maxBackUps })
      else (some true, fs2)
    else (some true, fs1)

/-- `PickleDB.set`: gate check, then `self.db[str(key)] = value`, `True`. -/
def PickleDB.set (st : PickleDB) (k : PyKey) (v : PyVal) : Option Bool × PickleDB :=
  if !st.loaded then (Option.none, st)
  else (some true, { st with db := dictSet st.db (.str (pyKeyStr k)) v })

/-- `PickleDB.get`: gate check (Python `None` when closed), then
`self.db.get(str(key))`, which is the stored value or Python `None`. -/
def PickleDB.get (st : PickleDB) (k : PyKey) : PyVal :=
  if !st.loaded then PyVal.none
  else (dictGet st.db (.str (pyKeyStr k))).getD PyVal.none

/-- `PickleDB.remove`: gate check, then delete `str(key)` if present
(`True`), else `False` with the dict untouched. -/
def PickleDB.remove (st : PickleDB) (k : PyKey) : Option Bool × PickleDB :=
  if !st.loaded then (Option.none, st)
  else
    if dictMem st.db (.str (pyKeyStr k)) then
      (some true, { st with db := dictDel st.db (.str (pyKeyStr k)) })
    else (some false, st)

/-- `PickleDB.purge`: gate check, then `self.db.clear()`, `True`. -/
def PickleDB.purge (st : PickleDB) : Option Bool × PickleDB :=
  if !st.loaded then (Option.none, st)
  else (some true, { st with db := [] })

/-- `PickleDB.all`: gate check (Python `None` when closed), then
`list(self.db.keys())`. -/
def PickleDB.all (st : PickleDB) : Option (List PyKey) :=
  if !st.loaded then Option.none
  else some (dictKeys st.db)

/-- `PickleDB.set_many`: gate check, then `self.db.update(data)` — the
entries are inserted in iteration order with their keys NOT coerced by
`str`. -/
def PickleDB.set_many (st : PickleDB) (data : List (PyKey × PyVal)) :
    Option Bool × PickleDB :=
  if !st.loaded then (Option.none, st)
  else (some true,
    { st with db := data.foldl (fun d p => dictSet d p.1 p.2) st.db })

/-- `PickleDB.remove_many`: gate check, then for each key, test the raw key
with `key in self.db` and pop `str(key)` with a default (no error when the
coerced key is absent). -/
def PickleDB.remove_many (st : PickleDB) (keys : List PyKey) :
    Option Bool × PickleDB :=
  if !st.loaded then (Option.none, st)
  else
    let db1 := keys.foldl (fun d k => if dictMem d k then dictDel d (.str (pyKeyStr k)) else d) st.db
    (some true, { st with db := db1 })

/-- Character-list test that `sub` occurs at the head of `hay`. -/
def startsWithChars : List Char → List Char → Bool
  | [], _ => true
  | _ :: _, [] => false
  | a :: as, b :: bs => a == b && startsWithChars as bs

/-- Character-list test that `sub` occurs somewhere in `hay`, the model of
Python `sub in hay` on strings. -/
def hasSubstrChars (sub : List Char) : List Char → Bool
  | [] => sub.isEmpty
  | c :: rest => startsWithChars sub (c :: rest) || hasSubstrChars sub rest

/-- Python `sub in hay` for strings. -/
def strContains (hay sub : String) : Bool :=
  hasSubstrChars sub.data hay.data

/-- `PickleDB.search_by_key`: gate check (Python `None` when closed), then
the keys containing the substring. -/
def PickleDB.search_by_key (st : PickleDB) (substring : String) :
    Option (List PyKey) :=
  if !st.loaded then Option.none
  else some ((dictKeys st.db).filter (fun k => strContains (pyKeyStr k) substring))

/-- `PickleDB.search_by_value`: gate check (Python `None` when closed), then
the keys whose value's `str` form contains the needle. -/
def PickleDB.search_by_value (st : PickleDB) (needle : String) :
    Option (List PyKey) :=
  if !st.loaded then Option.none
  else some ((st.db.filter (fun p => strContains (pyValStr p.2) needle)).map (fun p => p.1))

/-- `PickleDB.filter`: gate check (Python `None` when closed), then the
sub-dict of entries whose value satisfies the supplied condition. -/
def PickleDB.filter (st : PickleDB) (condition : PyVal → Bool) : Option Dict :=
  if !st.loaded then Option.none
  else some (st.db.filter (fun p => condition p.2))

/-- Longest common subsequence length, the classical recursion, driven by a
fuel counter so the definition is structurally recursive: every recursive
call shortens the combined length by at least one, so fuel equal to the
combined length is always sufficient. -/
def lcsAux : Nat → List Char → List Char → Nat
  | 0, _, _ => 0
  | _ + 1, [], _ => 0
  | _ + 1, _ :: _, [] => 0
  | fuel + 1, a :: as, b :: bs =>
    if a = b then lcsAux fuel as bs + 1
    else max (lcsAux fuel (a :: as) bs) (lcsAux fuel as (b :: bs))

/-- Longest common subsequence length of two character lists. -/
def lcsLen (a b : List Char) : Nat :=
  lcsAux (a.length + b.length) a b

/-- Modelled from the spec: the scorer of `rapidfuzz.process.extract` is
external library code; the spec requires a standard normalized
edit-distance-derived similarity on the 0-100 scale, which is the indel
(insert/delete) ratio `100 * (|a| + |b| - dist) / (|a| + |b|)
= 200 * lcs(a, b) / (|a| + |b|)`, with two empty strings scoring 100.
The score is kept as an unreduced numerator-denominator pair of naturals
so that all comparisons are natural-number cross-multiplications. -/
def simPair (a b : String) : Nat × Nat :=
  if a.length + b.length = 0 then (100, 1)
  else (200 * lcsLen a.data b.data, a.length + b.length)

/-- The similarity score itself, on the 0-100 scale. -/
def similarity (a b : String) : ℚ :=
  ((simPair a b).1 : ℚ) / ((simPair a b).2 : ℚ)

/-- The threshold test `score >= threshold` of `fuzzy_search`, by
cross-multiplication (denominators are positive). -/
def meetsThreshold (t : Nat) (a b : String) : Bool :=
  t * (simPair a b).2 ≤ (simPair a b).1

/-- Ranking relation of the fuzzy search: key `x` scores at least as high
against the query as key `y` does, by cross-multiplication. -/
def scoreGe (q : String) (x y : PyKey) : Prop :=
  (simPair q (pyKeyStr y)).1 * (simPair q (pyKeyStr x)).2
    ≤ (simPair q (pyKeyStr x)).1 * (simPair q (pyKeyStr y)).2

instance (q : String) : DecidableRel (scoreGe q) :=
  fun _ _ => Nat.decLe _ _

instance (q : String) : IsTotal PyKey (scoreGe q) :=
  ⟨fun _ _ => Nat.le_total _ _⟩

instance (q : String) : IsTrans PyKey (scoreGe q) := by
  constructor
  intro x y z h1 h2
  have hy : 0 < (simPair q (pyKeyStr y)).2 := by
    unfold simPair
    split
    · simp
    · simp_all
      omega
  unfold scoreGe at h1 h2 ⊢
  have g1 := Nat.mul_le_mul_right (simPair q (pyKeyStr z)).2 h1
  have g2 := Nat.mul_le_mul_right (simPair q (pyKeyStr x)).2 h2
  apply Nat.le_of_mul_le_mul_right _ hy
  calc (simPair q (pyKeyStr z)).1 * (simPair q (pyKeyStr x)).2 * (simPair q (pyKeyStr y)).2
      = (simPair q (pyKeyStr z)).1 * (simPair q (pyKeyStr y)).2 * (simPair q (pyKeyStr x)).2 := by ring
    _ ≤ (simPair q (pyKeyStr y)).1 * (simPair q (pyKeyStr z)).2 * (simPair q (pyKeyStr x)).2 := g2
    _ = (simPair q (pyKeyStr y)).1 * (simPair q (pyKeyStr x)).2 * (simPair q (pyKeyStr z)).2 := by ring
    _ ≤ (simPair q (pyKeyStr x)).1 * (simPair q (pyKeyStr y)).2 * (simPair q (pyKeyStr z)).2 := g1
    _ = (simPair q (pyKeyStr x)).1 * (simPair q (pyKeyStr z)).2 * (simPair q (pyKeyStr y)).2 := by ring

/-- Modelled from the spec: `rapidfuzz.process.extract(query, keys, limit=5)`
is external library code; per the spec it returns the 5 best-scoring keys,
ranked by similarity descending with ties broken by original key order
(a stable descending sort followed by `take 5`). -/
def extractTop (q : String) (keys : List PyKey) : List PyKey :=
  (keys.insertionSort (scoreGe q)).take 5

/-- `PickleDB.fuzzy_search`: gate check (Python `None` when closed), then
keep, of the 5 best-ranked keys, those whose similarity meets the
threshold. -/
def PickleDB.fuzzy_search (st : PickleDB) (q : String) (threshold : Nat) :
    Option (List PyKey) :=
  if !st.loaded then Option.none
  else some ((extractTop q (dictKeys st.db)).filter
    (fun k => meetsThreshold threshold q (pyKeyStr k)))

/-- `PickleDB.restore`: NO gate check.  A missing backup file prints and
returns `False`; otherwise the backup is decoded into `self.db` (a decode
failure leaves the dict unchanged and returns `False`), `save(backup=False)`
runs with its result discarded, and `True` is returned unconditionally. -/
def PickleDB.restore (st : PickleDB) (fs : FS) (name : Nat) (writeOk : Bool) :
    Bool × PickleDB × FS :=
  match lookupBackup fs name with
  | Option.none => (false, st, fs)
  | some data =>
    match decodeData st.encryption data with
    | Option.none => (false, st, fs)
    | some d =>
      let st1 : PickleDB := { st with db := d }
      let r := st1.save fs false 5 writeOk 0
      (true, st1, r.2)

/-- Iterated `save(backup=True, max_back_ups=L)` on a fixed store state:
the n-th call happens at timestamp `n` (timestamps strictly increase, one
backup file per save, as the rotation property assumes). -/
def savesIter (st : PickleDB) (L : Nat) : Nat → FS → FS
  | 0, fs => fs
  | n + 1, fs => (st.save (savesIter st L n fs) true L true (n + 1)).2

/-- The HTTP facade `get_item` of `src/api.py`: `db.get(key)` and a 404
`HTTPException` when the result is Python `None`, else the key-value
payload. -/
def get_item (st : PickleDB) (key : String) : Except Nat (String × PyVal) :=
  let value := st.get (.str key)
  if value = PyVal.none then .error 404 else .ok (key, value)

/-- Calling `set(k, v)` in order for each entry of `data`: the single-key
operation iterated, the reference point of the bulk-equivalence claim. -/
def setSeq (st : PickleDB) (data : List (PyKey × PyVal)) : PickleDB :=
  data.foldl (fun s p => (s.set p.1 p.2).2) st

/-- Calling `remove(k)` in order for each key of `keys`. -/
def removeSeq (st : PickleDB) (keys : List PyKey) : PickleDB :=
  keys.foldl (fun s k => (s.remove k).2) st

/-- Timestamps `a+1 .. a+k`, each naming a backup file with contents `e`:
the shape of the backup directory after consecutive saves. -/
def backupWindow (e : Data) (a k : Nat) : List (Nat × Data) :=
  (List.range k).map (fun i => (a + i + 1, e))

/-! Helper lemmas about the dict model. -/

theorem dictGet_dictSet_self (d : Dict) (k : PyKey) (v : PyVal) :
    dictGet (dictSet d k v) k = some v := by
  induction d with
  | nil => simp [dictSet, dictGet]
  | cons p rest ih =>
    by_cases h : p.1 = k
    · simp [dictSet, dictGet, h]
    · simp [dictSet, dictGet, h, ih]

theorem dictMem_eq_isSome (d : Dict) (k : PyKey) :
    dictMem d k = (dictGet d k).isSome := by
  induction d with
  | nil => rfl
  | cons p rest ih =>
    by_cases h : p.1 = k
    · simp [dictMem, dictGet, h]
    · have hb : (p.1 == k) = false := beq_eq_false_iff_ne.mpr h
      simp only [dictMem, List.any_cons, hb, Bool.false_or, dictGet, if_neg h]
      exact ih

theorem mem_dictKeys_iff (d : Dict) (k : PyKey) :
    k ∈ dictKeys d ↔ dictMem d k = true := by
  induction d with
  | nil => simp [dictKeys, dictMem]
  | cons p rest ih =>
    by_cases h : p.1 = k
    · simp [dictKeys, dictMem, h]
    · have hb : (p.1 == k) = false := beq_eq_false_iff_ne.mpr h
      have hkp : ¬ k = p.1 := fun hk => h hk.symm
      simp only [dictKeys, List.map_cons, List.mem_cons, hkp, false_or, dictMem,
        List.any_cons, hb, Bool.false_or]
      exact ih

theorem dictGet_dictDel_self (d : Dict) (k : PyKey) :
    dictGet (dictDel d k) k = Option.none := by
  induction d with
  | nil => rfl
  | cons p rest ih =>
    by_cases h : p.1 = k
    · simpa [dictDel, List.filter_cons, h] using ih
    · simpa [dictDel, List.filter_cons, h, dictGet] using ih

theorem dictGet_eq_none_of_not_mem (d : Dict) (k : PyKey)
    (h : dictMem d k = false) : dictGet d k = Option.none := by
  rw [dictMem_eq_isSome] at h
  cases hg : dictGet d k with
  | none => rfl
  | some v => rw [hg] at h; simp at h


/-! Bridging lemmas between the natural-number score pairs and the 0-100
rational similarity scale. -/

theorem simPair_den_pos (a b : String) : 0 < (simPair a b).2 := by
  unfold simPair
  split
  next h => simp
  next h => simpa using Nat.pos_of_ne_zero h

theorem meetsThreshold_iff (t : Nat) (a b : String) :
    meetsThreshold t a b = true ↔ (t : ℚ) ≤ similarity a b := by
  have hd : (0 : ℚ) < ((simPair a b).2 : ℚ) := by exact_mod_cast simPair_den_pos a b
  unfold meetsThreshold similarity
  rw [decide_eq_true_iff, le_div_iff₀ hd]
  constructor
  · intro h; exact_mod_cast h
  · intro h; exact_mod_cast h

theorem scoreGe_iff (q : String) (x y : PyKey) :
    scoreGe q x y ↔ similarity q (pyKeyStr y) ≤ similarity q (pyKeyStr x) := by
  have hx : (0 : ℚ) < ((simPair q (pyKeyStr x)).2 : ℚ) := by
    exact_mod_cast simPair_den_pos q (pyKeyStr x)
  have hy : (0 : ℚ) < ((simPair q (pyKeyStr y)).2 : ℚ) := by
    exact_mod_cast simPair_den_pos q (pyKeyStr y)
  unfold scoreGe similarity
  rw [div_le_div_iff₀ hy hx]
  constructor
  · intro h; exact_mod_cast h
  · intro h; exact_mod_cast h

/-- C9 counterexample: over the keys hello, world and help, the query
"helo" at threshold 80 returns ONLY "hello" — "help" is not among the
results, because its normalized edit-distance similarity to "helo" is 75,
below the threshold. -/
theorem C9_fuzzy_search_counterexample :
    (PickleDB.mk [(PyKey.str "hello", PyVal.none), (PyKey.str "world", PyVal.none),
        (PyKey.str "help", PyVal.none)] true false).fuzzy_search "helo" 80
      = some [PyKey.str "hello"]
    ∧ PyKey.str "help" ∉
        ((PickleDB.mk [(PyKey.str "hello", PyVal.none), (PyKey.str "world", PyVal.none),
            (PyKey.str "help", PyVal.none)] true false).fuzzy_search "helo" 80).getD [] := by
  decide

/-- C9 amended: `fuzzy_search` returns at most 5 keys, every returned key
has similarity to the query of at least the threshold on the 0-100 scale,
and the results are ordered by similarity descending (ties broken by
original key order, the stable-sort order of the model); however, over the
keys hello, world and help, the query "helo" at threshold 80 returns only
"hello": both "hello" and "help" outscore "world", but the similarity of
"help" is exactly 75, below the threshold 80. -/
theorem C9_fuzzy_search_amended (db : Dict) (enc : Bool) (q : String) (t : Nat) :
    (((PickleDB.mk db true enc).fuzzy_search q t).getD []).length ≤ 5
    ∧ (∀ k, k ∈ ((PickleDB.mk db true enc).fuzzy_search q t).getD [] →
        (t : ℚ) ≤ similarity q (pyKeyStr k))
    ∧ List.Sorted (fun x y => similarity q (pyKeyStr y) ≤ similarity q (pyKeyStr x))
        (((PickleDB.mk db true enc).fuzzy_search q t).getD [])
    ∧ (PickleDB.mk [(PyKey.str "hello", PyVal.none), (PyKey.str "world", PyVal.none),
          (PyKey.str "help", PyVal.none)] true false).fuzzy_search "helo" 80
      = some [PyKey.str "hello"]
    ∧ similarity "helo" "help" = 75
    ∧ similarity "helo" "help" ≤ similarity "helo" "hello"
    ∧ similarity "helo" "world" ≤ similarity "helo" "help" := by
  refine ⟨?_, ?_, ?_, by decide, ?_, ?_, ?_⟩
  · exact le_trans (List.length_filter_le _ _) (List.length_take_le _ _)
  · intro k hk
    have hk2 := List.mem_filter.mp hk
    exact (meetsThreshold_iff t q (pyKeyStr k)).mp hk2.2
  · have h0 := List.sorted_insertionSort (scoreGe q) (dictKeys db)
    have hsub : List.Sublist
        ((extractTop q (dictKeys db)).filter (fun k => meetsThreshold t q (pyKeyStr k)))
        ((dictKeys db).insertionSort (scoreGe q)) :=
      (List.filter_sublist _).trans (List.take_sublist _ _)
    have hs := List.Pairwise.sublist hsub h0
    exact hs.imp (fun hab => (scoreGe_iff q _ _).mp hab)
  · have h1 : simPair "helo" "help" = (600, 8) := by decide
    rw [similarity, h1]
    norm_num
  · have h1 : simPair "helo" "help" = (600, 8) := by decide
    have h2 : simPair "helo" "hello" = (800, 9) := by decide
    rw [similarity, similarity, h1, h2]
    norm_num
  · have h1 : simPair "helo" "world" = (200, 9) := by decide
    have h2 : simPair "helo" "help" = (600, 8) := by decide
    rw [similarity, similarity, h1, h2]
    norm_num

/-- C9 witness: the returned key "hello" indeed meets the threshold 80. -/
theorem C9_fuzzy_search_amended_witness :
    ((80 : Nat) : ℚ) ≤ similarity "helo" (pyKeyStr (PyKey.str "hello")) :=
  (C9_fuzzy_search_amended [(PyKey.str "hello", PyVal.none), (PyKey.str "world", PyVal.none),
      (PyKey.str "help", PyVal.none)] false "helo" 80).2.1 (PyKey.str "hello") (by decide)

end PickleSpec

namespace PickleSpec

/-! Claim theorems. -/

/-- C2 (atomic commit): on a usable store, if the encode-and-write of the
temporary file fails, `save` returns `False` and neither the primary file
nor the rest of the filesystem changes; if it succeeds, `save` returns
`True` and the primary file holds exactly the codec encoding of the current
map, for every backup flag and retention argument. -/
theorem C2_atomic_commit (d : Dict) (enc : Bool) (fs : FS) (b : Bool) (m now : Nat) :
    (PickleDB.mk d true enc).save fs b m false now = (some false, fs)
    ∧ ((PickleDB.mk d true enc).save fs b m true now).1 = some true
    ∧ ((PickleDB.mk d true enc).save fs b m true now).2.primary = some (encode enc d) := by
  refine ⟨by simp [PickleDB.save], ?_, ?_⟩ <;>
    cases b <;> simp [PickleDB.save] <;> split <;> simp

/-- C3 (security-mode gate at load): whenever the encryption marker of the
on-disk data disagrees with the configured mode, loading yields an empty
in-memory map with the usable flag false (the raised `ValueError` is caught
by the load's own handler, so the process does not crash and the map is
never populated from the misinterpreted bytes). -/
theorem C3_security_mode_gate (dat : Data) (enc : Bool)
    (h : hasMarker dat ≠ enc) : loadFn enc (some dat) = ([], false) := by
  cases dat <;> cases enc <;> simp_all [loadFn, hasMarker, decodeData]

/-- C3 witness: an encrypted file under a plain-mode store is gated. -/
theorem C3_security_mode_gate_witness :
    hasMarker (Data.cipher [(PyKey.str "a", PyVal.int 1)]) ≠ false
    ∧ loadFn false (some (Data.cipher [(PyKey.str "a", PyVal.int 1)])) = ([], false) :=
  ⟨by decide, C3_security_mode_gate _ _ (by decide)⟩

/-- C6 (set/get round-trip): on a usable store, `set(k, v)` then `get(k)`
returns `v`, the string form of `k` appears in `all()`, a subsequent
`remove(k)` returns `True` and makes `get(k)` absent, and `remove` on an
absent key returns `False` and leaves the store unchanged. -/
theorem C6_set_get_round_trip (db : Dict) (enc : Bool) (k k2 : PyKey) (v : PyVal)
    (h : dictMem db (PyKey.str (pyKeyStr k2)) = false) :
    ((PickleDB.mk db true enc).set k v).2.get k = v
    ∧ PyKey.str (pyKeyStr k) ∈ (((PickleDB.mk db true enc).set k v).2.all).getD []
    ∧ (((PickleDB.mk db true enc).set k v).2.remove k).1 = some true
    ∧ ((((PickleDB.mk db true enc).set k v).2.remove k).2).get k = PyVal.none
    ∧ ((PickleDB.mk db true enc).remove k2).1 = some false
    ∧ ((PickleDB.mk db true enc).remove k2).2 = PickleDB.mk db true enc := by
  refine ⟨?_, ?_, ?_, ?_, ?_, ?_⟩
  · simp [PickleDB.set, PickleDB.get, dictGet_dictSet_self]
  · simp [PickleDB.set, PickleDB.all, mem_dictKeys_iff, dictMem_eq_isSome,
      dictGet_dictSet_self]
  · simp [PickleDB.set, PickleDB.remove, dictMem_eq_isSome, dictGet_dictSet_self]
  · simp [PickleDB.set, PickleDB.remove, PickleDB.get, dictMem_eq_isSome,
      dictGet_dictSet_self, dictGet_dictDel_self]
  · simp [PickleDB.remove, h]
  · simp [PickleDB.remove, h]

/-- C6 witness at a concrete store. -/
theorem C6_set_get_round_trip_witness :
    ((PickleDB.mk [] true false).set (PyKey.str "a") (PyVal.int 1)).2.get (PyKey.str "a")
      = PyVal.int 1
    ∧ PyKey.str (pyKeyStr (PyKey.str "a"))
        ∈ (((PickleDB.mk [] true false).set (PyKey.str "a") (PyVal.int 1)).2.all).getD []
    ∧ (((PickleDB.mk [] true false).set (PyKey.str "a") (PyVal.int 1)).2.remove
        (PyKey.str "a")).1 = some true
    ∧ ((((PickleDB.mk [] true false).set (PyKey.str "a") (PyVal.int 1)).2.remove
        (PyKey.str "a")).2).get (PyKey.str "a") = PyVal.none
    ∧ ((PickleDB.mk [] true false).remove (PyKey.str "b")).1 = some false
    ∧ ((PickleDB.mk [] true false).remove (PyKey.str "b")).2 = PickleDB.mk [] true false :=
  C6_set_get_round_trip [] false (PyKey.str "a") (PyKey.str "b") (PyVal.int 1) (by decide)

/-- C10 (stored null indistinguishable from absence): on a usable store,
`get` of a key whose stored value is Python `None` returns exactly the same
sentinel as `get` of a key that is not in the map, and the HTTP facade's
`get_item` answers 404 for such an existing-but-null key. -/
theorem C10_null_value_absent (db db2 : Dict) (enc : Bool) (s : String)
    (h : dictMem db2 (PyKey.str s) = false) :
    (PickleDB.mk (dictSet db (PyKey.str s) PyVal.none) true enc).get (PyKey.str s)
      = PyVal.none
    ∧ (PickleDB.mk db2 true enc).get (PyKey.str s) = PyVal.none
    ∧ get_item (PickleDB.mk (dictSet db (PyKey.str s) PyVal.none) true enc) s
      = Except.error 404 := by
  refine ⟨?_, ?_, ?_⟩
  · simp [PickleDB.get, pyKeyStr, dictGet_dictSet_self]
  · simp [PickleDB.get, pyKeyStr, dictGet_eq_none_of_not_mem db2 _ h]
  · simp [get_item, PickleDB.get, pyKeyStr, dictGet_dictSet_self]

/-- C10 witness at a concrete store. -/
theorem C10_null_value_absent_witness :
    (PickleDB.mk (dictSet [] (PyKey.str "k") PyVal.none) true false).get (PyKey.str "k")
      = PyVal.none
    ∧ (PickleDB.mk [] true false).get (PyKey.str "k") = PyVal.none
    ∧ get_item (PickleDB.mk (dictSet [] (PyKey.str "k") PyVal.none) true false) "k"
      = Except.error 404 :=
  C10_null_value_absent [] [] false "k" (by decide)

/-- C8 (gate-closed results, the divergence made concrete): with the gate
closed, every operation returns bare Python `None` — the reads `all`,
`search_by_key`, `search_by_value`, `filter` and `fuzzy_search` do NOT
return their designated empty results (the inline comments of the source
say an empty list is returned, but the bare `return` yields `None`), and
the writes `set`, `remove`, `purge`, `set_many`, `remove_many` and `save`
do NOT return an explicit `False`; no state changes. -/
theorem C8_gate_closed_results :
    (PickleDB.mk [(PyKey.str "x", PyVal.int 1)] false false).all = Option.none
    ∧ (PickleDB.mk [(PyKey.str "x", PyVal.int 1)] false false).get (PyKey.str "x")
        = PyVal.none
    ∧ (PickleDB.mk [(PyKey.str "x", PyVal.int 1)] false false).search_by_key "x"
        = Option.none
    ∧ (PickleDB.mk [(PyKey.str "x", PyVal.int 1)] false false).search_by_value "1"
        = Option.none
    ∧ (PickleDB.mk [(PyKey.str "x", PyVal.int 1)] false false).filter (fun _ => true)
        = Option.none
    ∧ (PickleDB.mk [(PyKey.str "x", PyVal.int 1)] false false).fuzzy_search "x" 80
        = Option.none
    ∧ (PickleDB.mk [(PyKey.str "x", PyVal.int 1)] false false).set (PyKey.str "a")
        (PyVal.int 2)
        = (Option.none, PickleDB.mk [(PyKey.str "x", PyVal.int 1)] false false)
    ∧ (PickleDB.mk [(PyKey.str "x", PyVal.int 1)] false false).remove (PyKey.str "x")
        = (Option.none, PickleDB.mk [(PyKey.str "x", PyVal.int 1)] false false)
    ∧ (PickleDB.mk [(PyKey.str "x", PyVal.int 1)] false false).purge
        = (Option.none, PickleDB.mk [(PyKey.str "x", PyVal.int 1)] false false)
    ∧ (PickleDB.mk [(PyKey.str "x", PyVal.int 1)] false false).set_many
        [(PyKey.str "a", PyVal.int 2)]
        = (Option.none, PickleDB.mk [(PyKey.str "x", PyVal.int 1)] false false)
    ∧ (PickleDB.mk [(PyKey.str "x", PyVal.int 1)] false false).remove_many [PyKey.str "x"]
        = (Option.none, PickleDB.mk [(PyKey.str "x", PyVal.int 1)] false false)
    ∧ (PickleDB.mk [(PyKey.str "x", PyVal.int 1)] false false).save (FS.mk Option.none [])
        true 5 true 0
        = (Option.none, FS.mk Option.none []) :=
  ⟨rfl, rfl, rfl, rfl, rfl, rfl, rfl, rfl, rfl, rfl, rfl, rfl⟩

end PickleSpec

namespace PickleSpec

/-! Auxiliary lemmas for the bulk-variant equivalence. -/

theorem setSeq_not_loaded (st : PickleDB) (h : st.loaded = false) :
    ∀ data, setSeq st data = st := by
  intro data
  induction data with
  | nil => rfl
  | cons p rest ih =>
    have hset : (st.set p.1 p.2).2 = st := by simp [PickleDB.set, h]
    calc setSeq st (p :: rest) = setSeq ((st.set p.1 p.2).2) rest := rfl
    _ = setSeq st rest := by rw [hset]
    _ = st := ih

theorem removeSeq_not_loaded (st : PickleDB) (h : st.loaded = false) :
    ∀ keys, removeSeq st keys = st := by
  intro keys
  induction keys with
  | nil => rfl
  | cons k rest ih =>
    have hrem : (st.remove k).2 = st := by simp [PickleDB.remove, h]
    calc removeSeq st (k :: rest) = removeSeq ((st.remove k).2) rest := rfl
    _ = removeSeq st rest := by rw [hrem]
    _ = st := ih

theorem set_many_eq_setSeq (data : List (PyKey × PyVal)) :
    ∀ st : PickleDB, data.all (fun p => p.1.isStr) = true →
      (st.set_many data).2 = setSeq st data := by
  induction data with
  | nil =>
    intro st _
    obtain ⟨d0, l0, e0⟩ := st
    cases l0 <;> simp [PickleDB.set_many, setSeq]
  | cons p rest ih =>
    intro st h
    simp only [List.all_cons, Bool.and_eq_true] at h
    obtain ⟨hp, hrest⟩ := h
    obtain ⟨s, hs⟩ : ∃ s, p.1 = PyKey.str s := by
      cases hp1 : p.1 with
      | str s => exact ⟨s, rfl⟩
      | int n => rw [hp1] at hp; simp [PyKey.isStr] at hp
    have hcoerce : PyKey.str (pyKeyStr p.1) = p.1 := by rw [hs]; rfl
    obtain ⟨d0, l0, e0⟩ := st
    cases l0 with
    | false =>
      rw [setSeq_not_loaded _ rfl]
      simp [PickleDB.set_many]
    | true =>
      have hseq : setSeq (PickleDB.mk d0 true e0) (p :: rest)
          = setSeq (PickleDB.mk (dictSet d0 p.1 p.2) true e0) rest := by
        show setSeq (((PickleDB.mk d0 true e0).set p.1 p.2).2) rest = _
        simp [PickleDB.set, hcoerce]
      rw [hseq, ← ih _ hrest]
      simp [PickleDB.set_many]

theorem remove_many_eq_removeSeq (keys : List PyKey) :
    ∀ st : PickleDB, keys.all PyKey.isStr = true →
      (st.remove_many keys).2 = removeSeq st keys := by
  induction keys with
  | nil =>
    intro st _
    obtain ⟨d0, l0, e0⟩ := st
    cases l0 <;> simp [PickleDB.remove_many, removeSeq]
  | cons k rest ih =>
    intro st h
    simp only [List.all_cons, Bool.and_eq_true] at h
    obtain ⟨hk, hrest⟩ := h
    obtain ⟨s, hs⟩ : ∃ s, k = PyKey.str s := by
      cases hk1 : k with
      | str s => exact ⟨s, rfl⟩
      | int n => rw [hk1] at hk; simp [PyKey.isStr] at hk
    have hcoerce : PyKey.str (pyKeyStr k) = k := by rw [hs]; rfl
    obtain ⟨d0, l0, e0⟩ := st
    cases l0 with
    | false =>
      rw [removeSeq_not_loaded _ rfl]
      simp [PickleDB.remove_many]
    | true =>
      have hseq : removeSeq (PickleDB.mk d0 true e0) (k :: rest)
          = removeSeq
              (PickleDB.mk (if dictMem d0 k then dictDel d0 k else d0) true e0) rest := by
        show removeSeq (((PickleDB.mk d0 true e0).remove k).2) rest = _
        by_cases hm : dictMem d0 k <;> simp [PickleDB.remove, hcoerce, hm]
      rw [hseq, ← ih _ hrest]
      by_cases hm : dictMem d0 k <;> simp [PickleDB.remove_many, hcoerce, hm]

/-- C1 counterexample: with the usability gate closed (`loaded = false`),
`restore` on an existing decodable backup still replaces the in-memory map
and returns `True` — it neither leaves the state unchanged nor signals
unavailability, so the gate invariant does not cover `restore`. -/
theorem C1_usability_gate_counterexample :
    ((PickleDB.mk [] false false).restore
        (FS.mk Option.none [(1, Data.plain [(PyKey.str "a", PyVal.int 1)])]) 1 true).1
      = true
    ∧ ((PickleDB.mk [] false false).restore
        (FS.mk Option.none [(1, Data.plain [(PyKey.str "a", PyVal.int 1)])]) 1 true).2.1.db
      = [(PyKey.str "a", PyVal.int 1)] :=
  ⟨rfl, rfl⟩

/-- C1 amended: with the gate closed, every public operation EXCEPT
`restore` (set, get, remove, purge, set_many, remove_many, all, the
searches, filter, fuzzy_search and save) changes neither the in-memory map
nor any on-disk file and returns Python `None`; `restore` performs no gate
check: it leaves the disk unchanged (its internal save is gated) but on an
existing decodable backup it replaces the in-memory map and returns
`True`. -/
theorem C1_usability_gate_amended (st : PickleDB) (h : st.loaded = false) :
    (∀ k v, st.set k v = (Option.none, st))
    ∧ (∀ k, st.get k = PyVal.none)
    ∧ (∀ k, st.remove k = (Option.none, st))
    ∧ st.purge = (Option.none, st)
    ∧ (∀ data, st.set_many data = (Option.none, st))
    ∧ (∀ keys, st.remove_many keys = (Option.none, st))
    ∧ st.all = Option.none
    ∧ (∀ s, st.search_by_key s = Option.none)
    ∧ (∀ s, st.search_by_value s = Option.none)
    ∧ (∀ c, st.filter c = Option.none)
    ∧ (∀ q t, st.fuzzy_search q t = Option.none)
    ∧ (∀ fs b m w now, st.save fs b m w now = (Option.none, fs))
    ∧ (∀ fs name w, (st.restore fs name w).2.2 = fs)
    ∧ (∀ fs name w dat d2, lookupBackup fs name = some dat →
        decodeData st.encryption dat = some d2 →
        st.restore fs name w = (true, { st with db := d2 }, fs)) := by
  refine ⟨?_, ?_, ?_, ?_, ?_, ?_, ?_, ?_, ?_, ?_, ?_, ?_, ?_, ?_⟩
  · intro k v; simp [PickleDB.set, h]
  · intro k; simp [PickleDB.get, h]
  · intro k; simp [PickleDB.remove, h]
  · simp [PickleDB.purge, h]
  · intro data; simp [PickleDB.set_many, h]
  · intro keys; simp [PickleDB.remove_many, h]
  · simp [PickleDB.all, h]
  · intro s; simp [PickleDB.search_by_key, h]
  · intro s; simp [PickleDB.search_by_value, h]
  · intro c; simp [PickleDB.filter, h]
  · intro q t; simp [PickleDB.fuzzy_search, h]
  · intro fs b m w now; simp [PickleDB.save, h]
  · intro fs name w
    cases hlb : lookupBackup fs name with
    | none => simp [PickleDB.restore, hlb]
    | some dat =>
      cases hdc : decodeData st.encryption dat with
      | none => simp [PickleDB.restore, hlb, hdc]
      | some d2 => simp [PickleDB.restore, hlb, hdc, PickleDB.save, h]
  · intro fs name w dat d2 hlb hdc
    simp [PickleDB.restore, hlb, hdc, PickleDB.save, h]

/-- C1 witness: a concrete gated store on which `all()` signals
unavailability. -/
theorem C1_usability_gate_amended_witness :
    (PickleDB.mk [] false false).all = Option.none :=
  (C1_usability_gate_amended (PickleDB.mk [] false false) rfl).2.2.2.2.2.2.1

/-- C5 counterexample: `set_many` inserts the raw key `1` (an int) where the
iterated `set` would insert the coerced key `"1"`, and `remove_many` tests
membership of the raw key, skipping a deletion the iterated `remove` would
perform — so neither bulk operation applies the single-key coercion. -/
theorem C5_bulk_equivalence_counterexample :
    ((PickleDB.mk [] true false).set_many [(PyKey.int 1, PyVal.int 7)]).2
      ≠ setSeq (PickleDB.mk [] true false) [(PyKey.int 1, PyVal.int 7)]
    ∧ ((PickleDB.mk [(PyKey.str "1", PyVal.int 7)] true false).remove_many
        [PyKey.int 1]).2
      ≠ removeSeq (PickleDB.mk [(PyKey.str "1", PyVal.int 7)] true false)
          [PyKey.int 1] := by
  decide

/-- C5 amended: when every key involved is already a Python string, the
bulk variants agree with iterating the single-key operations: `set_many`
leaves the store exactly as calling `set` per entry in order, and
`remove_many` exactly as calling `remove` per key (on non-string keys the
bulk variants skip the `str` coercion and diverge). -/
theorem C5_bulk_equivalence_amended (st : PickleDB) (data : List (PyKey × PyVal))
    (keys : List PyKey) (hd : data.all (fun p => p.1.isStr) = true)
    (hk : keys.all PyKey.isStr = true) :
    (st.set_many data).2 = setSeq st data
    ∧ (st.remove_many keys).2 = removeSeq st keys :=
  ⟨set_many_eq_setSeq data st hd, remove_many_eq_removeSeq keys st hk⟩

/-- C5 witness at a concrete store with string keys. -/
theorem C5_bulk_equivalence_amended_witness :
    ((PickleDB.mk [(PyKey.str "a", PyVal.int 1)] true false).set_many
        [(PyKey.str "b", PyVal.int 2)]).2
      = setSeq (PickleDB.mk [(PyKey.str "a", PyVal.int 1)] true false)
          [(PyKey.str "b", PyVal.int 2)]
    ∧ ((PickleDB.mk [(PyKey.str "a", PyVal.int 1)] true false).remove_many
        [PyKey.str "a"]).2
      = removeSeq (PickleDB.mk [(PyKey.str "a", PyVal.int 1)] true false)
          [PyKey.str "a"] :=
  C5_bulk_equivalence_amended _ _ _ (by decide) (by decide)

/-- C7 counterexample: on an existing decodable backup whose subsequent
commit to disk fails, `restore` still returns `True` — the primary file was
not updated (it is still missing here), so `restore` does not return the
success/failure of the restore-then-save sequence. -/
theorem C7_restore_counterexample :
    ((PickleDB.mk [] true false).restore
        (FS.mk Option.none [(1, Data.plain [(PyKey.str "a", PyVal.int 1)])]) 1 false).1
      = true
    ∧ ((PickleDB.mk [] true false).restore
        (FS.mk Option.none [(1, Data.plain [(PyKey.str "a", PyVal.int 1)])]) 1
        false).2.2.primary
      = Option.none :=
  ⟨rfl, rfl⟩

/-- C7 amended: `restore` on a missing backup returns `False` and leaves
the live map and the whole filesystem unchanged; on an undecodable backup
likewise; on an existing decodable backup it replaces the live map with
exactly the captured key-value set, creates no new backup file, and returns
`True` unconditionally — the result of the internal `save(backup=False)` is
discarded (the primary file is updated only when the store is usable and
the write succeeds; on a failed write the filesystem is untouched). -/
theorem C7_restore_amended (st : PickleDB) (fs : FS) (name : Nat) (w : Bool) :
    (lookupBackup fs name = Option.none → st.restore fs name w = (false, st, fs))
    ∧ (∀ dat, lookupBackup fs name = some dat →
        decodeData st.encryption dat = Option.none →
        st.restore fs name w = (false, st, fs))
    ∧ (∀ dat d2, lookupBackup fs name = some dat →
        decodeData st.encryption dat = some d2 →
        (st.restore fs name w).1 = true
        ∧ (st.restore fs name w).2.1 = { st with db := d2 }
        ∧ ((st.restore fs name w).2.2).backups = fs.backups
        ∧ (st.loaded = true → w = true →
            ((st.restore fs name w).2.2).primary = some (encode st.encryption d2))
        ∧ (w = false → (st.restore fs name w).2.2 = fs)) := by
  refine ⟨?_, ?_, ?_⟩
  · intro hlb; simp [PickleDB.restore, hlb]
  · intro dat hlb hdc; simp [PickleDB.restore, hlb, hdc]
  · intro dat d2 hlb hdc
    refine ⟨?_, ?_, ?_, ?_, ?_⟩
    · simp [PickleDB.restore, hlb, hdc]
    · simp [PickleDB.restore, hlb, hdc]
    · cases hl : st.loaded <;> cases hw : w <;>
        simp [PickleDB.restore, hlb, hdc, PickleDB.save, hl, hw]
    · intro hl hw; simp [PickleDB.restore, hlb, hdc, PickleDB.save, hl, hw]
    · intro hw
      cases hl : st.loaded <;>
        simp [PickleDB.restore, hlb, hdc, PickleDB.save, hl, hw]

/-- C7 witness: a concrete successful restore returning `True`. -/
theorem C7_restore_amended_witness :
    ((PickleDB.mk [] true false).restore
        (FS.mk Option.none [(1, Data.plain [(PyKey.str "a", PyVal.int 1)])]) 1 true).1
      = true :=
  ((C7_restore_amended (PickleDB.mk [] true false)
      (FS.mk Option.none [(1, Data.plain [(PyKey.str "a", PyVal.int 1)])]) 1 true).2.2
    (Data.plain [(PyKey.str "a", PyVal.int 1)]) [(PyKey.str "a", PyVal.int 1)]
    rfl rfl).1

end PickleSpec

namespace PickleSpec

/-! Backup rotation: auxiliary lemmas and the rotation invariant. -/

theorem backupWindow_length (e : Data) (a k : Nat) :
    (backupWindow e a k).length = k := by
  simp [backupWindow]

theorem backupWindow_key_lt (e : Data) (a k : Nat) :
    ∀ q ∈ backupWindow e a k, q.1 < a + k + 1 := by
  intro q hq
  simp only [backupWindow, List.mem_map, List.mem_range] at hq
  obtain ⟨i, hik, rfl⟩ := hq
  simp
  omega

theorem backupWindow_snoc (e : Data) (a k : Nat) :
    backupWindow e a k ++ [(a + k + 1, e)] = backupWindow e a (k + 1) := by
  simp [backupWindow, List.range_succ]

theorem backupWindow_cons (e : Data) (a k : Nat) :
    backupWindow e a (k + 1) = (a + 1, e) :: backupWindow e (a + 1) k := by
  unfold backupWindow
  rw [List.range_succ_eq_map]
  simp only [List.map_cons, List.map_map]
  have hf : ((fun i => (a + i + 1, e)) ∘ Nat.succ) = fun i => (a + 1 + i + 1, e) := by
    funext i
    simp only [Function.comp, Prod.mk.injEq, and_true]
    omega
  rw [hf]

theorem insertBackup_append (t : Nat) (dat : Data) (bs : List (Nat × Data))
    (h : ∀ q ∈ bs, q.1 < t) : insertBackup bs t dat = bs ++ [(t, dat)] := by
  induction bs with
  | nil => rfl
  | cons q rest ih =>
    obtain ⟨t0, d0⟩ := q
    have h0 : t0 < t := h (t0, d0) (List.mem_cons_self _ _)
    have h1 : ¬ t < t0 := by omega
    have h2 : ¬ t = t0 := by omega
    simp only [insertBackup, if_neg h1, if_neg h2, List.cons_append]
    exact congrArg _ (ih fun q hq => h q (List.mem_cons_of_mem _ hq))

theorem save_backups_true (d : Dict) (enc : Bool) (fs : FS) (L now : Nat) :
    ((PickleDB.mk d true enc).save fs true L true now).2.backups
      = (if (insertBackup fs.backups now (encode enc d)).length > 5
         then cleanupBackups (insertBackup fs.backups now (encode enc d)) L
         else insertBackup fs.backups now (encode enc d)) := by
  unfold PickleDB.save
  simp only [Bool.not_true]
  by_cases hc : 5 < (insertBackup fs.backups now (encode enc d)).length
  · simp [hc]
  · simp [hc]

theorem savesIter_backups (d : Dict) (enc : Bool) (p : Option Data) (L : Nat)
    (hL : 5 ≤ L) :
    ∀ n, (savesIter (PickleDB.mk d true enc) L n (FS.mk p [])).backups
      = backupWindow (encode enc d) (n - min n L) (min n L) := by
  intro n
  induction n with
  | zero => simp [savesIter, backupWindow]
  | succ n ih =>
    set e := encode enc d with he
    set prev := savesIter (PickleDB.mk d true enc) L n (FS.mk p []) with hprev
    have hmn : min n L ≤ n := Nat.min_le_left _ _
    have hins : insertBackup prev.backups (n + 1) e = prev.backups ++ [(n + 1, e)] := by
      apply insertBackup_append
      intro q hq
      rw [ih] at hq
      have hlt := backupWindow_key_lt e (n - min n L) (min n L) q hq
      omega
    have hstep : (savesIter (PickleDB.mk d true enc) L (n + 1) (FS.mk p [])).backups
        = (if (insertBackup prev.backups (n + 1) e).length > 5
           then cleanupBackups (insertBackup prev.backups (n + 1) e) L
           else insertBackup prev.backups (n + 1) e) := by
      show ((PickleDB.mk d true enc).save prev true L true (n + 1)).2.backups = _
      exact save_backups_true d enc prev L (n + 1)
    rw [hstep, hins, ih]
    rcases Nat.lt_or_ge n L with hn | hn
    · have h1 : min n L = n := Nat.min_eq_left hn.le
      have h2 : min (n + 1) L = n + 1 := Nat.min_eq_left hn
      have hw : backupWindow e (n - min n L) (min n L) ++ [(n + 1, e)]
          = backupWindow e 0 (n + 1) := by
        rw [h1, Nat.sub_self]
        rw [← backupWindow_snoc e 0 n]
        simp
      rw [hw, h2, Nat.sub_self]
      have hlen : (backupWindow e 0 (n + 1)).length = n + 1 :=
        backupWindow_length e 0 (n + 1)
      by_cases hc : (backupWindow e 0 (n + 1)).length > 5
      · rw [if_pos hc]
        unfold cleanupBackups
        have hcond : ¬ (backupWindow e 0 (n + 1)).length > L := by rw [hlen]; omega
        rw [if_neg hcond]
      · rw [if_neg hc]
    · have h2 : min (n + 1) L = L := Nat.min_eq_right (by omega)
      have hw : backupWindow e (n - min n L) (min n L) ++ [(n + 1, e)]
          = backupWindow e (n - L) (L + 1) := by
        rw [Nat.min_eq_right hn]
        rw [← backupWindow_snoc e (n - L) L]
        have h4 : n - L + L + 1 = n + 1 := by omega
        rw [h4]
      rw [hw, h2]
      have hlen : (backupWindow e (n - L) (L + 1)).length = L + 1 :=
        backupWindow_length e (n - L) (L + 1)
      have hc : (backupWindow e (n - L) (L + 1)).length > 5 := by rw [hlen]; omega
      rw [if_pos hc]
      unfold cleanupBackups
      have hc2 : (backupWindow e (n - L) (L + 1)).length > L := by rw [hlen]; omega
      rw [if_pos hc2, hlen]
      have h5 : L + 1 - L = 1 := by omega
      rw [h5, backupWindow_cons e (n - L) L]
      have h6 : n - L + 1 = n + 1 - L := by omega
      rw [List.drop_one, List.tail_cons, h6]

/-- C4 counterexample: with retention limit `L = 2` and `N = 3` saves (all
with backups enabled), 3 backup files remain, not 2 — rotation is only
triggered when the backup count exceeds the hardcoded 5 of `save`, not when
it exceeds the `max_back_ups` argument. -/
theorem C4_backup_retention_counterexample :
    ((savesIter (PickleDB.mk [(PyKey.str "a", PyVal.int 1)] true false) 2 3
        (FS.mk Option.none [])).backups.length = 3)
    ∧ ((savesIter (PickleDB.mk [(PyKey.str "a", PyVal.int 1)] true false) 2 3
        (FS.mk Option.none [])).backups.map Prod.fst = [1, 2, 3]) := by
  decide

/-- C4 amended: rotation triggers when the backup count exceeds the
hardcoded 5, and cleanup then keeps the `L` newest; consequently, for every
retention limit `L ≥ 5` and every `N > L`, after `N` saves (at strictly
increasing timestamps `1 .. N`) exactly `L` backup files remain, and they
are the `L` most recent by timestamp (`N-L+1 .. N`).  For `L < 5` the
rotation keeps up to 5 files, not `L` (see the counterexample). -/
theorem C4_backup_retention_amended (d : Dict) (enc : Bool) (p : Option Data)
    (L N : Nat) (hL : 5 ≤ L) (hN : L < N) :
    (savesIter (PickleDB.mk d true enc) L N (FS.mk p [])).backups
      = backupWindow (encode enc d) (N - L) L := by
  have h := savesIter_backups d enc p L hL N
  rwa [Nat.min_eq_right (le_of_lt hN)] at h

/-- C4 witness: six saves at retention 5 keep exactly the backups 2 .. 6. -/
theorem C4_backup_retention_amended_witness :
    (savesIter (PickleDB.mk [] true false) 5 6 (FS.mk Option.none [])).backups
      = backupWindow (encode false []) 1 5 :=
  C4_backup_retention_amended [] false Option.none 5 6 (by decide) (by decide)

end PickleSpec
